import Mathlib

/-!
Verification of the job-listing demo application.

Shallow embedding of the TypeScript sources:
  - `src/features/jobs/types.ts` : the `Job` record and `JobLevel` union;
  - `src/features/jobs/data.ts`  : the in-memory seed array `jobs`;
  - `src/features/jobs/api.ts`   : `matches`, `fetchJobs`, `fetchJobById`;
  - `src/hooks/useAsync.ts`      : the state machine of the async hook;
  - saved-jobs helpers `isSaved` / `toggleSaved`;
  - `updateParam` over `URLSearchParams` (pages/Jobs.tsx);
  - `useLocalStorage` / `useLocalStorageState`.

JavaScript strings are modelled as Lean `String`; `toLowerCase`, `trim` and
`includes` are modelled character-wise (the seed data is ASCII).  The
simulated network delay (`sleep`) has no observable effect other than
ordering, so a fetch is modelled as a function of its query and of the state
of its `AbortSignal` at the moment the delay has elapsed.
-/

namespace JobApp

/-- The `JobLevel` union type: `"junior" | "mid" | "senior"`. -/
inductive JobLevel where
  | junior
  | mid
  | senior
deriving DecidableEq, Repr

/-- The `Job` record from `types.ts`.  `id` is a JS number holding an
integer. -/
structure Job where
  id : Int
  title : String
  company : String
  location : String
  level : JobLevel
deriving DecidableEq, Repr

/-- The in-memory seed array from `data.ts`, verbatim. -/
def jobs : List Job := [
  { id := 1, title := "Frontend Engineer", company := "Acme",
    location := "US Remote", level := .mid },
  { id := 2, title := "React Developer", company := "Nova",
    location := "Remote", level := .senior },
  { id := 3, title := "Angular Developer", company := "CityLab",
    location := "Hybrid", level := .junior },
  { id := 4, title := "Fullstack Engineer", company := "Orbit",
    location := "US Remote", level := .mid },
  { id := 5, title := "Frontend Software Engineer", company := "Cloudify",
    location := "Berlin, DE", level := .senior },
  { id := 6, title := "Junior Frontend Developer", company := "BrightLabs",
    location := "Milan, IT", level := .junior },
  { id := 7, title := "React Engineer", company := "ScaleUp",
    location := "Remote (EU)", level := .mid },
  { id := 8, title := "UI Engineer", company := "DesignHub",
    location := "Amsterdam, NL", level := .mid },
  { id := 9, title := "Senior Frontend Engineer", company := "FinCore",
    location := "London, UK", level := .senior },
  { id := 10, title := "Web Developer", company := "NextGen",
    location := "Remote", level := .junior }
]

/-- JS `String.prototype.toLowerCase`, character-wise (ASCII). -/
def jsToLower (s : String) : String := s.map Char.toLower

/-- JS `String.prototype.trim`: strip leading and trailing whitespace. -/
def jsTrim (s : String) : String := s.trim

/-- JS `hay.includes(needle)`: `needle` occurs as a contiguous substring. -/
def strIncludes (hay needle : String) : Bool :=
  decide (needle.toList <:+: hay.toList)

/-- The level field of a `JobsQuery`: `Job["level"] | "all"`. -/
inductive QueryLevel where
  | all
  | lvl (l : JobLevel)
deriving DecidableEq, Repr

/-- The `JobsQuery` type from `api.ts`; both fields are optional. -/
structure JobsQuery where
  q : Option String := none
  level : Option QueryLevel := none
deriving DecidableEq, Repr

/-- The private `matches` from `api.ts` (named `matchesJob` here because the
name from the source is a reserved word here):
`const q = query.q?.trim().toLowerCase()`;
`qOk = !q || title/company/location (lower-cased) includes q`;
`levelOk = !level || level === "all" ? true : job.level === level`. -/
def matchesJob (job : Job) (query : JobsQuery) : Bool :=
  let q := query.q.map (fun s => jsToLower (jsTrim s))
  let qOk : Bool :=
    match q with
    | none => true
    | some qs =>
        qs = "" || strIncludes (jsToLower job.title) qs
          || strIncludes (jsToLower job.company) qs
          || strIncludes (jsToLower job.location) qs
  let levelOk : Bool :=
    match query.level with
    | none => true
    | some .all => true
    | some (.lvl l) => job.level = l
  qOk && levelOk

/-- A `DOMException`, as thrown by the fetches on abort. -/
structure DomException where
  message : String
  name : String
deriving DecidableEq, Repr

/-- `new DOMException("Aborted", "AbortError")`. -/
def abortError : DomException := { message := "Aborted", name := "AbortError" }

/-- An `AbortSignal`: its aborted flag at the time it is inspected, plus an
identity distinguishing signals of distinct controllers. -/
structure AbortSignal where
  aborted : Bool
  ident : Nat
deriving DecidableEq, Repr

/-- JS `signal?.aborted` for the optional signal parameter. -/
def signalAborted : Option AbortSignal → Bool
  | none => false
  | some s => s.aborted

/-- `fetchJobs` from `api.ts`: after the simulated delay, throw `AbortError`
if the signal is aborted, else return `seed.filter((j) => matches(j, query))`.
The result is the value of the settled promise. -/
def fetchJobs (query : JobsQuery) (signal : Option AbortSignal) :
    Except DomException (List Job) :=
  if signalAborted signal then .error abortError
  else .ok (jobs.filter (fun j => matchesJob j query))

/-- `fetchJobById` from `api.ts`: after the simulated delay, throw
`AbortError` if the signal is aborted, else return
`seed.find((j) => j.id === id) ?? null`. -/
def fetchJobById (id : Int) (signal : Option AbortSignal) :
    Except DomException (Option Job) :=
  if signalAborted signal then .error abortError
  else .ok (jobs.find? (fun j => j.id = id))

/-- JS `Array.prototype.filter`, with the receiver array made explicit: it
returns the new array of elements passing the predicate together with the
receiver, which it leaves unchanged (filter does not mutate). -/
def jsFilter (arr : List α) (p : α → Bool) : List α × List α :=
  (arr.filter p, arr)

/-- JS `Array.prototype.find`, with the receiver array made explicit: it
returns the first element satisfying the predicate (or `undefined`, here
`none`) together with the receiver, which it leaves unchanged. -/
def jsFind (arr : List α) (p : α → Bool) : Option α × List α :=
  (arr.find? p, arr)

/-- `fetchJobs` with the module-level `seed` array threaded through as state:
the second component is the seed array after the call. -/
def fetchJobsMut (seedArr : List Job) (query : JobsQuery)
    (signal : Option AbortSignal) : Except DomException (List Job) × List Job :=
  if signalAborted signal then (.error abortError, seedArr)
  else
    let r := jsFilter seedArr (fun j => matchesJob j query)
    (.ok r.1, r.2)

/-- `fetchJobById` with the module-level `seed` array threaded through as
state: the second component is the seed array after the call. -/
def fetchJobByIdMut (seedArr : List Job) (id : Int)
    (signal : Option AbortSignal) : Except DomException (Option Job) × List Job :=
  if signalAborted signal then (.error abortError, seedArr)
  else
    let r := jsFind seedArr (fun j => j.id = id)
    (.ok r.1, r.2)

/-- The `AsyncState<T>` union from `useAsync.ts` (the `data`/`error` fields
that are forced to `null` by each variant are omitted). -/
inductive AsyncState (T : Type) where
  | idle
  | loading
  | success (data : T)
  | error (e : DomException)
deriving DecidableEq

/-- The observable state of one `useAsync` hook instance: the React state,
the controller currently held by `abortRef`, and the set (as a list) of
controllers whose `abort()` has been called.  Controllers are identified by
`Nat` identities. -/
structure HookModel (T : Type) where
  status : AsyncState T
  abortRef : Option Nat
  aborted : List Nat
deriving DecidableEq

/-- The body of the `useEffect` in `useAsync`, run on every change of `deps`:
create a fresh controller, abort the previous one (`abortRef.current?.abort()`),
store the fresh controller in `abortRef`, and set the state to `loading`.
`fresh` is the identity of the newly constructed controller. -/
def runEffect (h : HookModel T) (fresh : Nat) : HookModel T :=
  { status := .loading,
    abortRef := some fresh,
    aborted :=
      match h.abortRef with
      | some c => c :: h.aborted
      | none => h.aborted }

/-- Settlement of the promise returned by `fn(controller.signal)` in
`useAsync`: on fulfilment go to `success`; on rejection with an `AbortError`
`DOMException` return without touching the state; on any other rejection go
to `error`. -/
def onSettle (h : HookModel T) (r : Except DomException T) : HookModel T :=
  match r with
  | .ok d => { h with status := .success d }
  | .error e =>
      if e.name = "AbortError" then h
      else { h with status := .error e }

/-- `SavedJobsState = Record<number, true>`: an object whose keys are the
saved job ids, modelled by its list of keys. -/
abbrev SavedJobsState : Type := List Int

/-- `isSaved` from the saved-jobs helpers: `Boolean(state[id])`, i.e. the key
is present. -/
def isSaved (state : SavedJobsState) (id : Int) : Bool :=
  decide (id ∈ state)

/-- `toggleSaved`: copy the state (`{...state}`); if the key is present,
delete it, else set it to `true`; return the copy. -/
def toggleSaved (state : SavedJobsState) (id : Int) : SavedJobsState :=
  if id ∈ state then List.filter (fun k => decide (k ≠ id)) state
  else state ++ [id]

/-- `toggleSaved` with the receiver made explicit: the first component is the
returned fresh copy, the second is the argument object after the call — the
spread `{...state}` copies, so all mutations act on the copy and the argument
is returned unchanged. -/
def toggleSavedMut (state : SavedJobsState) (id : Int) :
    SavedJobsState × SavedJobsState :=
  (toggleSaved state id, state)

/-- A `URLSearchParams` value: the ordered list of name–value pairs. -/
abbrev SearchParams : Type := List (String × String)

/-- `URLSearchParams.get`: the value of the first pair with the given name,
or `null`. -/
def getParam (ps : SearchParams) (k : String) : Option String :=
  (List.find? (fun p => p.1 = k) ps).map (fun p => p.2)

/-- `URLSearchParams.getAll`: the values of all pairs with the given name, in
order. -/
def getAllParam (ps : SearchParams) (k : String) : List String :=
  (List.filter (fun p => p.1 = k) ps).map (fun p => p.2)

/-- `URLSearchParams.delete(k)`: remove all pairs whose name is `k`. -/
def deleteParam (ps : SearchParams) (k : String) : SearchParams :=
  List.filter (fun p => decide (p.1 ≠ k)) ps

/-- `URLSearchParams.set(k, v)`: if a pair with name `k` exists, update the
first one to `v` and remove the others; otherwise append `(k, v)`. -/
def setParam : SearchParams → String → String → SearchParams
  | [], k, v => [(k, v)]
  | p :: ps, k, v =>
      if p.1 = k then (k, v) :: deleteParam ps k
      else p :: setParam ps k v

/-- `updateParam` from `pages/Jobs.tsx`: copy the current params
(`new URLSearchParams(params)`); `if (!value) next.delete(key); else
next.set(key, value)`; the copy is what `setParams` installs. -/
def updateParam (ps : SearchParams) (key value : String) : SearchParams :=
  if value = "" then deleteParam ps key
  else setParam ps key value

/-- The `localStorage` key–value store: a map from keys to raw strings,
modelled as a list of pairs with at most one entry per key. -/
abbrev Storage : Type := List (String × String)

/-- `localStorage.getItem(key)`: the stored string, or `null`. -/
def getItem (st : Storage) (k : String) : Option String :=
  (List.find? (fun p => p.1 = k) st).map (fun p => p.2)

/-- `localStorage.setItem(key, v)`: bind `key` to `v`. -/
def setItem (st : Storage) (k v : String) : Storage :=
  (k, v) :: List.filter (fun p => decide (p.1 ≠ k)) st

/-- The lazy `useState` initializer of `useLocalStorage` /
`useLocalStorageState`: read the raw string for `key`; if it is `null` or
empty (`!raw`) return `initialValue`; otherwise `JSON.parse` it, falling back
to `initialValue` when parsing throws.  `parse` models `JSON.parse` for the
value type `T` (returning `none` where `JSON.parse` would throw). -/
def useLocalStorageInit (parse : String → Option T) (st : Storage)
    (key : String) (initialValue : T) : T :=
  match getItem st key with
  | none => initialValue
  | some raw =>
      if raw = "" then initialValue
      else
        match parse raw with
        | none => initialValue
        | some v => v

/-- The `useEffect` of `useLocalStorage` / `useLocalStorageState`, run on
every value update: `localStorage.setItem(key, JSON.stringify(value))`.
`stringify` models `JSON.stringify` for the value type `T`. -/
def useLocalStorageWrite (stringify : T → String) (st : Storage)
    (key : String) (value : T) : Storage :=
  setItem st key (stringify value)

/-- The matching predicate as the spec words it, for comparison with
`matchesJob` from the source: the job matches when the search string `q`, trimmed and
lower-cased, is empty or absent, or is a substring of the lower-cased title,
company, or location; and the level filter is absent, equal to `"all"`, or
equal to the level of the job. -/
def specMatches (job : Job) (query : JobsQuery) : Bool :=
  (match query.q with
   | none => true
   | some s =>
       let qn := jsToLower (jsTrim s)
       qn = "" || strIncludes (jsToLower job.title) qn
         || strIncludes (jsToLower job.company) qn
         || strIncludes (jsToLower job.location) qn)
  &&
  (match query.level with
   | none => true
   | some .all => true
   | some (.lvl l) => job.level = l)

/-- JSON.stringify restricted to boolean values. -/
def boolStringify (b : Bool) : String := if b then "true" else "false"

/-- JSON.parse restricted to boolean values: `none` where `JSON.parse` would
throw or produce a non-boolean. -/
def boolParse (s : String) : Option Bool :=
  if s = "true" then some true
  else if s = "false" then some false
  else none

theorem matchesJob_eq_specMatches : ∀ (j : Job) (q : JobsQuery),
    matchesJob j q = specMatches j q := by
  rintro j ⟨qq, ql⟩
  rcases qq with _ | s <;> rcases ql with _ | (_ | l) <;> rfl

theorem jobs_find_self : ∀ j ∈ jobs,
    jobs.find? (fun x => decide (x.id = j.id)) = some j := by decide

/-- C1: with a non-aborted signal, `fetchJobs` returns exactly the jobs of
the seed list that match the query, where a job matches when the search
string, trimmed and lower-cased, is empty or absent or occurs in the
lower-cased title, company or location, and the level filter is absent,
`"all"`, or equal to the level of the job. -/
theorem fetchJobs_filters_by_spec_predicate (query : JobsQuery)
    (signal : Option AbortSignal) (h : signalAborted signal = false) :
    fetchJobs query signal =
      .ok (jobs.filter (fun j => specMatches j query)) := by
  simp only [fetchJobs, h, Bool.false_eq_true, if_false, matchesJob_eq_specMatches]

/-- Witness for C1 at a concrete query. -/
theorem fetchJobs_filters_by_spec_predicate_witness :
    signalAborted none = false ∧
      fetchJobs { q := some "  REACT ", level := some .all } none =
        .ok (jobs.filter (fun j =>
          specMatches j { q := some "  REACT ", level := some .all })) :=
  ⟨rfl, fetchJobs_filters_by_spec_predicate
    { q := some "  REACT ", level := some .all } none rfl⟩

/-- C3: with a non-aborted signal, `fetchJobById` returns the seed job whose
id equals the given id when one exists, returns `null` when none does, and
never throws. -/
theorem fetchJobById_finds_or_null (id : Int) (signal : Option AbortSignal)
    (h : signalAborted signal = false) :
    (∃ r, fetchJobById id signal = .ok r) ∧
    ((∀ j ∈ jobs, j.id ≠ id) → fetchJobById id signal = .ok none) ∧
    (∀ j ∈ jobs, j.id = id → fetchJobById id signal = .ok (some j)) := by
  have hfetch : fetchJobById id signal = .ok (jobs.find? (fun j => j.id = id)) := by
    simp [fetchJobById, h]
  refine ⟨⟨_, hfetch⟩, ?_, ?_⟩
  · intro hnone
    rw [hfetch, List.find?_eq_none.mpr]
    intro j hj
    simpa using hnone j hj
  · intro j hj hid
    subst hid
    rw [hfetch, jobs_find_self j hj]

/-- Witness for C3 at the concrete id 3 (present) and id 99 (absent). -/
theorem fetchJobById_finds_or_null_witness :
    signalAborted none = false ∧
    ((∃ r, fetchJobById 99 none = .ok r) ∧
      ((∀ j ∈ jobs, j.id ≠ 99) → fetchJobById 99 none = .ok none) ∧
      (∀ j ∈ jobs, j.id = 99 → fetchJobById 99 none = .ok (some j))) :=
  ⟨rfl, fetchJobById_finds_or_null 99 none rfl⟩

/-- C5: the job list produced by `fetchJobs` is in strictly ascending order
of ids, for every query. -/
theorem fetchJobs_sorted_by_id (query : JobsQuery) (signal : Option AbortSignal)
    (h : signalAborted signal = false) :
    ∃ l, fetchJobs query signal = .ok l ∧
      l.Pairwise (fun a b => a.id < b.id) := by
  refine ⟨jobs.filter (fun j => matchesJob j query), ?_, ?_⟩
  · simp [fetchJobs, h]
  · exact List.Pairwise.sublist (List.filter_sublist _)
      (by decide : jobs.Pairwise (fun a b => a.id < b.id))

/-- Witness for C5 at a concrete query. -/
theorem fetchJobs_sorted_by_id_witness :
    signalAborted none = false ∧
      ∃ l, fetchJobs { q := some "remote" } none = .ok l ∧
        l.Pairwise (fun a b => a.id < b.id) :=
  ⟨rfl, fetchJobs_sorted_by_id { q := some "remote" } none rfl⟩

/-- C7: `fetchJobs` is a pure function of its query — two calls with any two
non-aborted signals agree — and neither fetch modifies the seed array (the
threaded seed state is returned unchanged, for every signal). -/
theorem fetchJobs_pure_and_seed_unchanged (query : JobsQuery) (id : Int)
    (s1 s2 s3 : Option AbortSignal)
    (h1 : signalAborted s1 = false) (h2 : signalAborted s2 = false) :
    fetchJobs query s1 = fetchJobs query s2 ∧
    (fetchJobsMut jobs query s3).2 = jobs ∧
    (fetchJobByIdMut jobs id s3).2 = jobs := by
  refine ⟨by rw [fetchJobs, fetchJobs, h1, h2], ?_, ?_⟩ <;>
    cases hs : signalAborted s3 <;>
      simp [fetchJobsMut, fetchJobByIdMut, jsFilter, jsFind, hs]

/-- Witness for C7 at concrete signals. -/
theorem fetchJobs_pure_and_seed_unchanged_witness :
    signalAborted none = false ∧
    signalAborted (some { aborted := false, ident := 5 }) = false ∧
    (fetchJobs { q := some "react" } none =
        fetchJobs { q := some "react" } (some { aborted := false, ident := 5 }) ∧
      (fetchJobsMut jobs { q := some "react" }
          (some { aborted := true, ident := 9 })).2 = jobs ∧
      (fetchJobByIdMut jobs 4 (some { aborted := true, ident := 9 })).2 = jobs) :=
  ⟨rfl, rfl, fetchJobs_pure_and_seed_unchanged { q := some "react" } 4
    none (some { aborted := false, ident := 5 })
    (some { aborted := true, ident := 9 }) rfl rfl⟩

/-- C8: the seed list has exactly ten records, their ids are pairwise
distinct, and the job `find` locates for an existing id is that unique
job. -/
theorem jobs_seed_ten_distinct_ids :
    jobs.length = 10 ∧ (jobs.map Job.id).Nodup ∧
      ∀ j ∈ jobs, jobs.find? (fun x => decide (x.id = j.id)) = some j := by
  decide

/-- C2: cancellation is detected and never surfaced as an error.  The
fetches reject with the `AbortError` exception exactly when the signal is
aborted by the time the delay has elapsed (and fulfil otherwise); the effect
of `useAsync` aborts the controller held from the previous run and installs
the fresh one; and settling with an `AbortError` rejection leaves the hook
state unchanged, so an abort never produces status `"error"`. -/
theorem useAsync_cancellation (query : JobsQuery) (id : Int)
    (signal : Option AbortSignal) (T : Type) (h : HookModel T) (fresh : Nat) :
    (fetchJobs query signal = .error abortError ↔ signalAborted signal = true) ∧
    (fetchJobById id signal = .error abortError ↔ signalAborted signal = true) ∧
    ((∃ l, fetchJobs query signal = .ok l) ↔ signalAborted signal = false) ∧
    ((∃ r, fetchJobById id signal = .ok r) ↔ signalAborted signal = false) ∧
    abortError.name = "AbortError" ∧
    (runEffect h fresh).aborted =
      (match h.abortRef with
       | some c => c :: h.aborted
       | none => h.aborted) ∧
    (runEffect h fresh).abortRef = some fresh ∧
    (runEffect h fresh).status = .loading ∧
    onSettle h (Except.error abortError) = h := by
  cases hs : signalAborted signal <;>
    simp [fetchJobs, fetchJobById, hs, runEffect, onSettle, abortError]

theorem isSaved_toggleSaved_self (s : SavedJobsState) (id : Int) :
    isSaved (toggleSaved s id) id = !(isSaved s id) := by
  by_cases hmem : id ∈ s <;>
    simp [isSaved, toggleSaved, hmem, List.mem_filter, List.mem_append]

theorem isSaved_toggleSaved_other (s : SavedJobsState) (id j : Int)
    (hne : j ≠ id) : isSaved (toggleSaved s id) j = isSaved s j := by
  by_cases hmem : id ∈ s <;>
    simp [isSaved, toggleSaved, hmem, List.mem_filter, List.mem_append, hne]

/-- C9: `toggleSaved` flips exactly the toggled membership, and toggling
twice is observationally the identity as seen through `isSaved`. -/
theorem toggleSaved_flips_and_involution (s : SavedJobsState) (id : Int) :
    isSaved (toggleSaved s id) id = !(isSaved s id) ∧
    ∀ j, isSaved (toggleSaved (toggleSaved s id) id) j = isSaved s j := by
  refine ⟨isSaved_toggleSaved_self s id, ?_⟩
  intro j
  by_cases hj : j = id
  · subst hj
    rw [isSaved_toggleSaved_self, isSaved_toggleSaved_self, Bool.not_not]
  · rw [isSaved_toggleSaved_other _ _ _ hj, isSaved_toggleSaved_other _ _ _ hj]

/-- C10: `toggleSaved` has no effect on any other id, and it returns a fresh
copy, leaving the argument state unchanged. -/
theorem toggleSaved_frame (s : SavedJobsState) (id j : Int) (hne : j ≠ id) :
    isSaved (toggleSaved s id) j = isSaved s j ∧
    (toggleSavedMut s id).2 = s ∧
    (toggleSavedMut s id).1 = toggleSaved s id :=
  ⟨isSaved_toggleSaved_other s id j hne, rfl, rfl⟩

/-- Witness for C10 at a concrete state. -/
theorem toggleSaved_frame_witness :
    (3 : Int) ≠ 5 ∧
    (isSaved (toggleSaved [3] 5) 3 = isSaved [3] 3 ∧
      (toggleSavedMut [3] 5).2 = [3] ∧
      (toggleSavedMut [3] 5).1 = toggleSaved [3] 5) :=
  ⟨by decide, toggleSaved_frame [3] 5 3 (by decide)⟩

theorem getParam_cons (p : String × String) (ps : SearchParams) (k : String) :
    getParam (p :: ps) k = if p.1 = k then some p.2 else getParam ps k := by
  by_cases h : p.1 = k <;> simp [getParam, List.find?_cons, h]

theorem getAllParam_cons (p : String × String) (ps : SearchParams) (k : String) :
    getAllParam (p :: ps) k =
      if p.1 = k then p.2 :: getAllParam ps k else getAllParam ps k := by
  by_cases h : p.1 = k <;> simp [getAllParam, List.filter_cons, h]

theorem deleteParam_cons (p : String × String) (ps : SearchParams) (k : String) :
    deleteParam (p :: ps) k =
      if p.1 = k then deleteParam ps k else p :: deleteParam ps k := by
  by_cases h : p.1 = k <;> simp [deleteParam, List.filter_cons, h]

theorem setParam_cons (p : String × String) (ps : SearchParams) (k v : String) :
    setParam (p :: ps) k v =
      if p.1 = k then (k, v) :: deleteParam ps k else p :: setParam ps k v := rfl

theorem getParam_deleteParam_self (ps : SearchParams) (k : String) :
    getParam (deleteParam ps k) k = none := by
  induction ps with
  | nil => rfl
  | cons p ps ih =>
      rw [deleteParam_cons]
      by_cases h : p.1 = k
      · rw [if_pos h]; exact ih
      · rw [if_neg h, getParam_cons, if_neg h]; exact ih

theorem getParam_deleteParam_other (ps : SearchParams) (k k' : String)
    (hne : k' ≠ k) : getParam (deleteParam ps k) k' = getParam ps k' := by
  induction ps with
  | nil => rfl
  | cons p ps ih =>
      rw [deleteParam_cons]
      by_cases h : p.1 = k
      · have hq : p.1 ≠ k' := by rw [h]; exact Ne.symm hne
        rw [if_pos h, getParam_cons, if_neg hq]; exact ih
      · rw [if_neg h, getParam_cons, getParam_cons]
        by_cases hq : p.1 = k'
        · rw [if_pos hq, if_pos hq]
        · rw [if_neg hq, if_neg hq]; exact ih

theorem getParam_setParam_self (ps : SearchParams) (k v : String) :
    getParam (setParam ps k v) k = some v := by
  induction ps with
  | nil => show getParam [(k, v)] k = some v; rw [getParam_cons, if_pos rfl]
  | cons p ps ih =>
      rw [setParam_cons]
      by_cases h : p.1 = k
      · rw [if_pos h, getParam_cons, if_pos rfl]
      · rw [if_neg h, getParam_cons, if_neg h]; exact ih

theorem getParam_setParam_other (ps : SearchParams) (k v k' : String)
    (hne : k' ≠ k) : getParam (setParam ps k v) k' = getParam ps k' := by
  have hkk : ¬((k, v).1 = k') := Ne.symm hne
  induction ps with
  | nil => show getParam [(k, v)] k' = getParam [] k'; rw [getParam_cons, if_neg hkk]
  | cons p ps ih =>
      rw [setParam_cons]
      by_cases h : p.1 = k
      · have hq : p.1 ≠ k' := by rw [h]; exact Ne.symm hne
        rw [if_pos h, getParam_cons, if_neg hkk, getParam_cons, if_neg hq]
        exact getParam_deleteParam_other ps k k' hne
      · rw [if_neg h, getParam_cons, getParam_cons]
        by_cases hq : p.1 = k'
        · rw [if_pos hq, if_pos hq]
        · rw [if_neg hq, if_neg hq]; exact ih

theorem getAllParam_deleteParam_other (ps : SearchParams) (k k' : String)
    (hne : k' ≠ k) : getAllParam (deleteParam ps k) k' = getAllParam ps k' := by
  induction ps with
  | nil => rfl
  | cons p ps ih =>
      rw [deleteParam_cons]
      by_cases h : p.1 = k
      · have hq : p.1 ≠ k' := by rw [h]; exact Ne.symm hne
        rw [if_pos h, getAllParam_cons, if_neg hq]; exact ih
      · rw [if_neg h, getAllParam_cons, getAllParam_cons]
        by_cases hq : p.1 = k'
        · rw [if_pos hq, if_pos hq, ih]
        · rw [if_neg hq, if_neg hq]; exact ih

theorem getAllParam_setParam_other (ps : SearchParams) (k v k' : String)
    (hne : k' ≠ k) : getAllParam (setParam ps k v) k' = getAllParam ps k' := by
  have hkk : ¬((k, v).1 = k') := Ne.symm hne
  induction ps with
  | nil =>
      show getAllParam [(k, v)] k' = getAllParam [] k'
      rw [getAllParam_cons, if_neg hkk]
  | cons p ps ih =>
      rw [setParam_cons]
      by_cases h : p.1 = k
      · have hq : p.1 ≠ k' := by rw [h]; exact Ne.symm hne
        rw [if_pos h, getAllParam_cons, if_neg hkk, getAllParam_cons, if_neg hq]
        exact getAllParam_deleteParam_other ps k k' hne
      · rw [if_neg h, getAllParam_cons, getAllParam_cons]
        by_cases hq : p.1 = k'
        · rw [if_pos hq, if_pos hq, ih]
        · rw [if_neg hq, if_neg hq]; exact ih

/-- C6: `updateParam` with an empty value removes the key, with a non-empty
value sets the key to exactly that value, and in both cases every other
search param (its full list of values, and the value `get` reports) is left
unchanged. -/
theorem updateParam_sync (ps : SearchParams) (key value k' : String)
    (hne : k' ≠ key) :
    (value = "" → getParam (updateParam ps key value) key = none) ∧
    (value ≠ "" → getParam (updateParam ps key value) key = some value) ∧
    getParam (updateParam ps key value) k' = getParam ps k' ∧
    getAllParam (updateParam ps key value) k' = getAllParam ps k' := by
  refine ⟨?_, ?_, ?_, ?_⟩
  · intro hv
    simp [updateParam, hv, getParam_deleteParam_self]
  · intro hv
    simp [updateParam, hv, getParam_setParam_self]
  · by_cases hv : value = "" <;>
      simp [updateParam, hv, getParam_deleteParam_other ps key k' hne,
        getParam_setParam_other ps key value k' hne]
  · by_cases hv : value = "" <;>
      simp [updateParam, hv, getAllParam_deleteParam_other ps key k' hne,
        getAllParam_setParam_other ps key value k' hne]

/-- Witness for C6 on concrete params. -/
theorem updateParam_sync_witness :
    ("level" : String) ≠ "q" ∧
    ((("" : String) = "" →
        getParam (updateParam [("q", "react"), ("level", "mid")] "q" "") "q" = none) ∧
      (("" : String) ≠ "" →
        getParam (updateParam [("q", "react"), ("level", "mid")] "q" "") "q" = some "") ∧
      getParam (updateParam [("q", "react"), ("level", "mid")] "q" "") "level" =
        getParam [("q", "react"), ("level", "mid")] "level" ∧
      getAllParam (updateParam [("q", "react"), ("level", "mid")] "q" "") "level" =
        getAllParam [("q", "react"), ("level", "mid")] "level") :=
  ⟨by decide, updateParam_sync [("q", "react"), ("level", "mid")] "q" "" "level"
    (by decide)⟩

/-- C4: the localStorage-backed hook initializes to `initialValue` when the
raw stored string is missing or fails to parse as JSON, and to the parsed
value otherwise; every update writes the serialized value under the key; and
a value whose serialization parses back to itself is recovered unchanged by
the next initialization from the same key. -/
theorem useLocalStorage_roundtrip (T : Type) (parse : String → Option T)
    (stringify : T → String) (st : Storage) (key : String)
    (initialValue v : T) :
    (getItem st key = none →
      useLocalStorageInit parse st key initialValue = initialValue) ∧
    (∀ raw, getItem st key = some raw → parse raw = none →
      useLocalStorageInit parse st key initialValue = initialValue) ∧
    (∀ raw w, getItem st key = some raw → raw ≠ "" → parse raw = some w →
      useLocalStorageInit parse st key initialValue = w) ∧
    getItem (useLocalStorageWrite stringify st key v) key = some (stringify v) ∧
    (stringify v ≠ "" → parse (stringify v) = some v →
      useLocalStorageInit parse (useLocalStorageWrite stringify st key v) key
        initialValue = v) := by
  have hwrite : getItem (useLocalStorageWrite stringify st key v) key =
      some (stringify v) := by
    simp [useLocalStorageWrite, setItem, getItem, List.find?_cons]
  refine ⟨?_, ?_, ?_, hwrite, ?_⟩
  · intro hnone
    simp [useLocalStorageInit, hnone]
  · intro raw hraw hparse
    by_cases hempty : raw = "" <;>
      simp [useLocalStorageInit, hraw, hparse, hempty]
  · intro raw w hraw hempty hparse
    simp [useLocalStorageInit, hraw, hparse, hempty]
  · intro hempty hparse
    simp [useLocalStorageInit, hwrite, hempty, hparse]

/-- Witness for C4: a store/load round trip through the hook with the JSON
boolean codec, at the key used for the saved map. -/
theorem useLocalStorage_roundtrip_witness :
    boolParse (boolStringify true) = some true ∧
    boolStringify true ≠ "" ∧
    ((getItem [] "savedJobs" = none →
        useLocalStorageInit boolParse [] "savedJobs" false = false) ∧
      (∀ raw, getItem [] "savedJobs" = some raw → boolParse raw = none →
        useLocalStorageInit boolParse [] "savedJobs" false = false) ∧
      (∀ raw w, getItem [] "savedJobs" = some raw → raw ≠ "" →
        boolParse raw = some w →
        useLocalStorageInit boolParse [] "savedJobs" false = w) ∧
      getItem (useLocalStorageWrite boolStringify [] "savedJobs" true)
          "savedJobs" = some (boolStringify true) ∧
      (boolStringify true ≠ "" → boolParse (boolStringify true) = some true →
        useLocalStorageInit boolParse
          (useLocalStorageWrite boolStringify [] "savedJobs" true) "savedJobs"
          false = true)) :=
  ⟨by decide, by decide,
    useLocalStorage_roundtrip Bool boolParse boolStringify [] "savedJobs"
      false true⟩

/-- Witness for C8: the uniqueness part applied at the concrete job with
id 3. -/
theorem jobs_seed_ten_distinct_ids_witness :
    jobs.length = 10 ∧ (jobs.map Job.id).Nodup ∧
      jobs.find? (fun x => decide (x.id = (3 : Int))) =
        some { id := 3, title := "Angular Developer", company := "CityLab",
               location := "Hybrid", level := .junior } := by
  refine ⟨jobs_seed_ten_distinct_ids.1, jobs_seed_ten_distinct_ids.2.1, ?_⟩
  exact jobs_seed_ten_distinct_ids.2.2
    { id := 3, title := "Angular Developer", company := "CityLab",
      location := "Hybrid", level := .junior } (by decide)

end JobApp
